import Mathlib

/-!
Verification of the path/capability validator, primitive file-operation
executor, JSON batch orchestrator and guest/host marshaling layer of the
file-operations component.  The Go sources (`tinygo/security.go`,
`tinygo/operations.go`, the JSON batch module and `tinygo/wit_bindings.go`)
are shallowly embedded: strings are Lean `String`s manipulated through their
character lists, the POSIX filesystem is an explicit `FS` record threaded
through every operation, and host commands are recorded in an event list.
All definitions are executable.
-/

namespace FileOps

/-! ### Lexical path model (`path/filepath` on a slash-separated platform) -/

/-- Split a character list into the segments delimited by '/'.
Mirrors how `filepath.Clean` scans path elements. -/
def splitSegs : List Char → List (List Char)
  | [] => [[]]
  | c :: rest =>
    if c = '/' then [] :: splitSegs rest
    else
      match splitSegs rest with
      | [] => [[c]]
      | s :: ss => (c :: s) :: ss

/-- Go `strings.Contains hay sub`: does `sub` occur as a contiguous substring
of `hay`? -/
def strContainsL (hay : List Char) (sub : List Char) : Bool :=
  match hay with
  | [] => sub.isEmpty
  | c :: t => sub.isPrefixOf (c :: t) || strContainsL t sub

/-- One step of `filepath.Clean`'s element processing: push a normal
element, drop "" and ".", and for ".." backtrack when possible, keep the
".." when the path is relative and nothing can be popped, and drop it at
the root of an absolute path.  The stack is kept most-recent-first. -/
def cleanStep (rooted : Bool) (stack : List (List Char)) (seg : List Char) :
    List (List Char) :=
  if seg = [] ∨ seg = ['.'] then stack
  else if seg = ['.', '.'] then
    match stack with
    | [] => if rooted then [] else [['.', '.']]
    | s :: rest => if s = ['.', '.'] then ['.', '.'] :: s :: rest else rest
  else seg :: stack

/-- Go `filepath.Clean` on the character list of a path (slash separator). -/
def cleanList (cs : List Char) : List Char :=
  if cs = [] then ['.']
  else
    let rooted := match cs with | '/' :: _ => true | _ => false
    let segs := (splitSegs cs).foldl (cleanStep rooted) []
    let body := List.intercalate ['/'] segs.reverse
    if rooted then '/' :: body
    else if body = [] then ['.'] else body

/-- Go `filepath.Clean` on strings. -/
def goClean (s : String) : String := String.mk (cleanList s.toList)

/-- Go `filepath.IsAbs`: the path starts with '/'. -/
def goIsAbs (p : String) : Bool :=
  match p.toList with
  | '/' :: _ => true
  | _ => false

/-- Go `filepath.Join` of two segments: concatenate with '/' and clean,
with Go's special cases for empty arguments. -/
def goJoin (a b : String) : String :=
  if a = "" ∧ b = "" then ""
  else if a = "" then goClean b
  else if b = "" then goClean a
  else goClean (a ++ "/" ++ b)

/-- Go `filepath.Abs` with an explicit working directory: absolute paths are
cleaned, relative ones joined onto the working directory. -/
def goAbs (cwd path : String) : String :=
  if goIsAbs path then goClean path else goJoin cwd path

/-- Go `filepath.Dir`: everything up to and including the final '/', cleaned;
"." when there is no separator. -/
def goDir (path : String) : String :=
  goClean (String.mk ((path.toList.reverse.dropWhile (fun c => c ≠ '/')).reverse))

/-- Go `strings.HasPrefix (Clean path) (Clean dir)` as used by the validator. -/
def cleanHasPrefix (path dir : String) : Bool :=
  (cleanList dir.toList).isPrefixOf (cleanList path.toList)

/-- ASCII-transparent `strings.ToLower` on a character list. -/
def lowerL (cs : List Char) : List Char := cs.map Char.toLower

/-! ### Security model (`tinygo/security.go`) -/

/-- The three enforcement levels, ordered as the Go `iota` constants. -/
inductive SecurityLevel where
  | standard
  | high
  | strict
deriving DecidableEq, Repr

/-- Numeric value of a level, matching the Go constant ordering. -/
def SecurityLevel.toNat : SecurityLevel → Nat
  | .standard => 0
  | .high => 1
  | .strict => 2

/-- The Go comparison `level >= l` on `SecurityLevel` ints. -/
def levelGe (a b : SecurityLevel) : Bool := Nat.ble b.toNat a.toNat

/-- Process-wide security configuration consulted by every validation. -/
structure SecurityContext where
  level : SecurityLevel
  accessibleDirs : List String
  restrictions : List String
deriving DecidableEq, Repr

/-- The initial value of the global `currentSecurityContext`. -/
def initialSecurityContext : SecurityContext :=
  { level := .standard, accessibleDirs := [], restrictions := [] }

/-- Go `containsPathTraversal` from `tinygo/operations.go`: the cleaned path
still contains ".." as a substring. -/
def containsPathTraversal (path : String) : Bool :=
  strContainsL (cleanList path.toList) ['.', '.']

/-- Go `validatePathStandard`: the traversal check has already run; standard
level allows everything else. -/
def validatePathStandard (_path : String) (_allowedDirs : List String) :
    Option String :=
  none

/-- Go `validatePathHigh`: the cleaned path must sit under a cleaned prefix of
the caller allow-list (when non-empty) and of the context's accessible
directories (when non-empty). -/
def validatePathHigh (ctx : SecurityContext) (path : String)
    (allowedDirs : List String) : Option String :=
  if decide (0 < allowedDirs.length) && !(allowedDirs.any (fun d => cleanHasPrefix path d)) then
    some ("path " ++ path ++ " not within allowed directories")
  else if decide (0 < ctx.accessibleDirs.length) && !(ctx.accessibleDirs.any (fun d => cleanHasPrefix path d)) then
    some ("path " ++ path ++ " not accessible in current security context")
  else none

/-- Go `validatePathStrict`: all high checks, then an empty allow-list is a
denial, then the absolute path is scanned case-insensitively for
sensitive-name substrings. -/
def validatePathStrict (ctx : SecurityContext) (cwd path : String)
    (allowedDirs : List String) : Option String :=
  match validatePathHigh ctx path allowedDirs with
  | some e => some e
  | none =>
    let absPath := goAbs cwd path
    if allowedDirs.length = 0 then
      some "strict security mode requires explicit allowed directories"
    else if strContainsL (lowerL absPath.toList) "secret".toList
        || strContainsL (lowerL absPath.toList) "private".toList
        || strContainsL (lowerL absPath.toList) ".ssh".toList then
      some ("path contains sensitive patterns: " ++ path)
    else none

/-- Go `ValidatePath`: the traversal check always runs first, then the check
specific to the context's level.  The working directory parameter stands
for the process state read by `filepath.Abs`. -/
def ValidatePath (ctx : SecurityContext) (cwd path : String)
    (allowedDirs : List String) : Option String :=
  if containsPathTraversal path then
    some ("path contains path traversal attempts: " ++ path)
  else
    match ctx.level with
    | .standard => validatePathStandard path allowedDirs
    | .high => validatePathHigh ctx path allowedDirs
    | .strict => validatePathStrict ctx cwd path allowedDirs

/-- Go `isPathAccessible`: under some accessible directory, or no restriction
is configured at all. -/
def isPathAccessible (ctx : SecurityContext) (path : String) : Bool :=
  ctx.accessibleDirs.any (fun d => cleanHasPrefix path d) || ctx.accessibleDirs.isEmpty

/-- Go `isPathWritable` delegates to `isPathAccessible`. -/
def isPathWritable (ctx : SecurityContext) (path : String) : Bool :=
  isPathAccessible ctx path

/-- Go `validateCopyOperation`: at High and above the source must be
accessible and the destination writable. -/
def validateCopyOperation (ctx : SecurityContext) (paths : List String) :
    Option String :=
  match paths with
  | src :: dest :: _ =>
    if levelGe ctx.level .high && !(isPathAccessible ctx src) then
      some ("source path not accessible: " ++ src)
    else if levelGe ctx.level .high && !(isPathWritable ctx dest) then
      some ("destination path not writable: " ++ dest)
    else none
  | _ => some "copy operation requires source and destination paths"

/-- Go `validateCreateOperation`: at High and above the parent directory must
be writable. -/
def validateCreateOperation (ctx : SecurityContext) (paths : List String) :
    Option String :=
  match paths with
  | path :: _ =>
    if levelGe ctx.level .high && !(isPathWritable ctx (goDir path)) then
      some ("parent directory not writable: " ++ goDir path)
    else none
  | _ => some "create operation requires path"

/-- Go `validateRemoveOperation`: Strict rejects directory-root-like paths. -/
def validateRemoveOperation (ctx : SecurityContext) (paths : List String) :
    Option String :=
  match paths with
  | path :: _ =>
    if levelGe ctx.level .strict &&
        (path.toList.reverse.head? = some '/' || path = "." || path = "..") then
      some ("removal of directory roots not allowed: " ++ path)
    else none
  | _ => some "remove operation requires path"

/-- Go `validateCommandOperation`: command execution is denied at High and
above. -/
def validateCommandOperation (ctx : SecurityContext) (_paths : List String) :
    Option String :=
  if levelGe ctx.level .high then
    some "command execution restricted in high security mode"
  else none

/-- Go `ValidateOperation`: every path is validated against the context's
accessible directories, then the operation-class rule runs. -/
def ValidateOperation (ctx : SecurityContext) (cwd : String)
    (operation : String) (paths : List String) : Option String :=
  match paths.findSome? (fun p =>
      (ValidatePath ctx cwd p ctx.accessibleDirs).map
        (fun e => "operation " ++ operation ++ " failed path validation: " ++ e)) with
  | some e => some e
  | none =>
    if operation = "copy_file" ∨ operation = "copy_directory" then
      validateCopyOperation ctx paths
    else if operation = "create_directory" then
      validateCreateOperation ctx paths
    else if operation = "remove_path" then
      validateRemoveOperation ctx paths
    else if operation = "run_command" then
      validateCommandOperation ctx paths
    else some ("unknown operation: " ++ operation)

/-- Go `SetSecurityLevel`: stores the level and updates the restrictions
descriptor list; Standard overwrites it, High and Strict append to it. -/
def SetSecurityLevel (ctx : SecurityContext) (level : SecurityLevel) :
    SecurityContext :=
  match level with
  | .standard =>
    { ctx with level := level,
               restrictions := ["basic path traversal protection"] }
  | .high =>
    { ctx with level := level,
               restrictions := ctx.restrictions ++
                 ["directory access restrictions", "preopen directory enforcement"] }
  | .strict =>
    { ctx with level := level,
               restrictions := ctx.restrictions ++
                 ["explicit allow-listing required", "sensitive path detection"] }

/-! ### Filesystem model

The POSIX tree seen by the component is a record of regular files (cleaned
absolute path and byte content), directories (cleaned absolute paths; a
directory's existence implies its ancestors') and a log of host commands
that have been spawned (`os/exec`).  Relative paths are resolved against
the explicit working directory, as the WASI libc does against the process
working directory. -/

structure FS where
  files : List (String × String)
  dirs : List String
  ran : List (String × List String)
deriving DecidableEq, Repr

/-- The empty filesystem. -/
def FS.empty : FS := { files := [], dirs := [], ran := [] }

/-- Resolve a path the way the libc resolves it: absolutize against the
working directory and clean. -/
def resolveP (cwd p : String) : String := goAbs cwd p

/-- Is there a regular file at (resolved) path `p`? -/
def FS.isFile (fs : FS) (p : String) : Bool := fs.files.any (fun kv => kv.1 = p)

/-- Is there a directory at (resolved) path `p`? -/
def FS.isDir (fs : FS) (p : String) : Bool := fs.dirs.contains p

/-- Content of the regular file at `p`, if any. -/
def FS.lookupFile (fs : FS) (p : String) : Option String :=
  (fs.files.find? (fun kv => kv.1 = p)).map (fun kv => kv.2)

/-- Create or truncate the regular file at `p` with content `c`. -/
def FS.setFile (fs : FS) (p c : String) : FS :=
  { fs with files := (p, c) :: fs.files.filter (fun kv => kv.1 ≠ p) }

/-- Does `p` exist at all (`os.Lstat` succeeding)? -/
def pathExistsFS (fs : FS) (p : String) : Bool := fs.isFile p || fs.isDir p

/-- Is `p` equal to or lexically below `root`? -/
def pathUnder (root p : String) : Bool :=
  p = root || (root.toList ++ ['/']).isPrefixOf p.toList

/-- Go `os.MkdirAll`: records the directory (ancestors implicit); fails when a
regular file occupies the path. -/
def mkdirAll (fs : FS) (p : String) : FS × Option String :=
  if fs.isFile p then (fs, some ("mkdir " ++ p ++ ": not a directory"))
  else if fs.isDir p then (fs, none)
  else ({ fs with dirs := p :: fs.dirs }, none)

/-- Go `os.RemoveAll`: delete `p` and everything below it; a missing path is
not an error. -/
def removeAllFS (fs : FS) (p : String) : FS × Option String :=
  ({ fs with
      files := fs.files.filter (fun kv => !(pathUnder p kv.1)),
      dirs := fs.dirs.filter (fun d => !(pathUnder p d)) }, none)

/-! ### Primitive operation executor (`tinygo/operations.go`)

Each executor returns the filesystem after the call together with `none`
on success or `some message` on failure; a failing call keeps whatever
mutations happened before the failing step, exactly as the Go code does. -/

/-- Go `CopyFile`: validate the destination, create its parent directory tree,
open the source, create the destination and stream the bytes. -/
def CopyFile (ctx : SecurityContext) (cwd src dest : String) (fs : FS) :
    FS × Option String :=
  match ValidatePath ctx cwd dest [] with
  | some e => (fs, some ("security validation failed: " ++ e))
  | none =>
    let (fs1, e1) := mkdirAll fs (resolveP cwd (goDir dest))
    match e1 with
    | some e => (fs1, some ("failed to create destination directory " ++ goDir dest ++ ": " ++ e))
    | none =>
      let rsrc := resolveP cwd src
      let rdest := resolveP cwd dest
      if !(fs1.isFile rsrc || fs1.isDir rsrc) then
        (fs1, some ("failed to open source file " ++ src))
      else if fs1.isDir rdest then
        (fs1, some ("failed to create destination file " ++ dest))
      else
        match fs1.lookupFile rsrc with
        | some content => (fs1.setFile rdest content, none)
        | none =>
          -- the source opened but is a directory: `os.Create` truncated the
          -- destination and `io.Copy` then failed
          (fs1.setFile rdest "", some "failed to copy file contents")

/-- Go `CreateDirectory`: validate, then `os.MkdirAll`. -/
def CreateDirectory (ctx : SecurityContext) (cwd path : String) (fs : FS) :
    FS × Option String :=
  match ValidatePath ctx cwd path [] with
  | some e => (fs, some ("security validation failed: " ++ e))
  | none =>
    let (fs1, e1) := mkdirAll fs (resolveP cwd path)
    match e1 with
    | some e => (fs1, some ("failed to create directory " ++ path ++ ": " ++ e))
    | none => (fs1, none)

/-- Go `RemovePath`: validate, then `os.RemoveAll`; a missing path is success. -/
def RemovePath (ctx : SecurityContext) (cwd path : String) (fs : FS) :
    FS × Option String :=
  match ValidatePath ctx cwd path [] with
  | some e => (fs, some ("security validation failed: " ++ e))
  | none =>
    let (fs1, e1) := removeAllFS fs (resolveP cwd path)
    match e1 with
    | some e => (fs1, some ("failed to remove path " ++ path ++ ": " ++ e))
    | none => (fs1, none)

/-- Rebase a path below `srcRoot` to the corresponding path below
`destRoot` (used by the recursive directory copy). -/
def rebase (srcRoot destRoot p : String) : String :=
  destRoot ++ String.mk (p.toList.drop srcRoot.toList.length)

/-- Denotation of `copyDirectoryContents`'s depth-first recursion: every
file and directory below `rsrc` reappears below `rdest`. -/
def copyTree (rsrc rdest : String) (fs : FS) : FS :=
  let copiedFiles := fs.files.filterMap (fun kv =>
    if pathUnder rsrc kv.1 then some (rebase rsrc rdest kv.1, kv.2) else none)
  let copiedDirs := fs.dirs.filterMap (fun d =>
    if pathUnder rsrc d then some (rebase rsrc rdest d) else none)
  { fs with
    files := copiedFiles.foldl (fun fl kv => (kv.1, kv.2) :: fl.filter (fun kv2 => kv2.1 ≠ kv.1)) fs.files,
    dirs := copiedDirs.foldl (fun ds d => if ds.contains d then ds else d :: ds) fs.dirs }

/-- Go `CopyDirectory`: validate the destination, require the source to be an
existing directory, create the destination and copy the tree. -/
def CopyDirectory (ctx : SecurityContext) (cwd src dest : String) (fs : FS) :
    FS × Option String :=
  match ValidatePath ctx cwd dest [] with
  | some e => (fs, some ("security validation failed: " ++ e))
  | none =>
    let rsrc := resolveP cwd src
    let rdest := resolveP cwd dest
    if !(fs.isFile rsrc || fs.isDir rsrc) then
      (fs, some ("source directory does not exist: " ++ src))
    else if fs.isFile rsrc then
      (fs, some ("source is not a directory: " ++ src))
    else
      let (fs1, e1) := mkdirAll fs rdest
      match e1 with
      | some e => (fs1, some ("failed to create destination directory " ++ dest ++ ": " ++ e))
      | none => (copyTree rsrc rdest fs1, none)

/-- The name of `p` as a direct child of `dir`, when it is one. -/
def childName (dir p : String) : Option String :=
  let pre := dir.toList ++ ['/']
  if pre.isPrefixOf p.toList then
    let rest := p.toList.drop pre.length
    if rest ≠ [] ∧ !(rest.contains '/') then some (String.mk rest) else none
  else none

/-- Go `os.ReadDir`: names of the direct children of a directory; fails when
`dir` is not an existing directory. -/
def readDirFS (fs : FS) (dir : String) : Option (List String) :=
  if fs.isDir dir then
    some ((fs.files.map (fun kv => kv.1) ++ fs.dirs).filterMap (childName dir))
  else none

/-- Shell-glob matching for list-directory patterns, covering the '*', '?'
and literal forms of `filepath.Match` (character classes omitted; no
pattern in this development uses them). -/
def globMatch : List Char → List Char → Bool
  | [], [] => true
  | [], _ :: _ => false
  | '*' :: ps, [] => globMatch ps []
  | '*' :: ps, c :: nr => globMatch ps (c :: nr) || globMatch ('*' :: ps) nr
  | '?' :: _, [] => false
  | '?' :: ps, _ :: nr => globMatch ps nr
  | _ :: _, [] => false
  | p :: ps, c :: nr => p = c && globMatch ps nr
termination_by p n => (n.length, p.length)

/-- Go `ListDirectory`: validate, read the directory, filter by the optional
glob pattern. -/
def ListDirectory (ctx : SecurityContext) (cwd dir : String)
    (pattern : Option String) (fs : FS) : Except String (List String) :=
  match ValidatePath ctx cwd dir [] with
  | some e => .error ("security validation failed: " ++ e)
  | none =>
    match readDirFS fs (resolveP cwd dir) with
    | none => .error ("failed to read directory " ++ dir)
    | some names =>
      match pattern with
      | none => .ok names
      | some pat => .ok (names.filter (fun n => globMatch pat.toList n.toList))

/-! ### JSON batch orchestrator

The JSON configuration module bridges batch documents to the primitive
executors.  A document that `encoding/json` rejects is represented as
`none`; a structurally decoded document as `some config`. -/

/-- A single decoded operation; absent JSON fields decode to Go zero
values, i.e. empty strings and lists. -/
structure Operation where
  type : String
  srcPath : String := ""
  destPath : String := ""
  path : String := ""
  command : String := ""
  args : List String := []
  workDir : String := ""
  outputFile : String := ""
deriving DecidableEq, Repr

/-- A decoded batch configuration document. -/
structure JsonConfig where
  workspaceDir : String
  operations : List Operation
deriving DecidableEq, Repr

/-- Result record of a processed batch (the timing field is dropped). -/
structure WorkspaceInfo where
  preparedFiles : List String
  workspacePath : String
  message : String
deriving DecidableEq, Repr

/-- Go `validateOperation` of the JSON module: per-type required fields and
absolute/relative constraints; unknown types are rejected. -/
def validateOperation (op : Operation) (index : Nat) : Option String :=
  if op.type = "copy_file" then
    if op.srcPath = "" ∨ op.destPath = "" then
      some ("operation " ++ toString index ++ ": copy_file requires src_path and dest_path")
    else if !(goIsAbs op.srcPath) then
      some ("operation " ++ toString index ++ ": src_path must be absolute: " ++ op.srcPath)
    else if goIsAbs op.destPath then
      some ("operation " ++ toString index ++ ": dest_path must be relative: " ++ op.destPath)
    else none
  else if op.type = "mkdir" then
    if op.path = "" then
      some ("operation " ++ toString index ++ ": mkdir requires path")
    else if goIsAbs op.path then
      some ("operation " ++ toString index ++ ": mkdir path must be relative: " ++ op.path)
    else none
  else if op.type = "copy_directory_contents" then
    if op.srcPath = "" ∨ op.destPath = "" then
      some ("operation " ++ toString index ++ ": copy_directory_contents requires src_path and dest_path")
    else if !(goIsAbs op.srcPath) then
      some ("operation " ++ toString index ++ ": src_path must be absolute: " ++ op.srcPath)
    else if goIsAbs op.destPath then
      some ("operation " ++ toString index ++ ": dest_path must be relative: " ++ op.destPath)
    else none
  else if op.type = "run_command" then
    if op.command = "" then
      some ("operation " ++ toString index ++ ": run_command requires command")
    else none
  else some ("operation " ++ toString index ++ ": unknown operation type: " ++ op.type)

/-- The indexed loop of `validateJsonConfig` over the operation list. -/
def validateOpsFrom (i : Nat) : List Operation → Option String
  | [] => none
  | op :: rest =>
    match validateOperation op i with
    | some e => some e
    | none => validateOpsFrom (i + 1) rest

/-- Go `validateJsonConfig`: non-empty absolute workspace directory and every
operation well-formed. -/
def validateJsonConfig (config : JsonConfig) : Option String :=
  if config.workspaceDir = "" then
    some "workspace_dir cannot be empty"
  else if !(goIsAbs config.workspaceDir) then
    some ("workspace_dir must be an absolute path: " ++ config.workspaceDir)
  else validateOpsFrom 0 config.operations

/-- Go `executeJsonCopyFile`: copy into the workspace-relative destination. -/
def executeJsonCopyFile (ctx : SecurityContext) (cwd : String)
    (op : Operation) (workspaceDir : String) (fs : FS) :
    FS × Except String (List String) :=
  let dest := goJoin workspaceDir op.destPath
  let (fs1, e) := CopyFile ctx cwd op.srcPath dest fs
  match e with
  | some msg => (fs1, .error msg)
  | none => (fs1, .ok [dest])

/-- Go `executeJsonMkdir`: create the workspace-relative directory. -/
def executeJsonMkdir (ctx : SecurityContext) (cwd : String)
    (op : Operation) (workspaceDir : String) (fs : FS) :
    FS × Except String (List String) :=
  let path := goJoin workspaceDir op.path
  let (fs1, e) := CreateDirectory ctx cwd path fs
  match e with
  | some msg => (fs1, .error msg)
  | none => (fs1, .ok [path])

/-- Go `executeJsonCopyDirectoryContents`: recursive copy, then a best-effort
listing of the destination for reporting. -/
def executeJsonCopyDirectoryContents (ctx : SecurityContext) (cwd : String)
    (op : Operation) (workspaceDir : String) (fs : FS) :
    FS × Except String (List String) :=
  let dest := goJoin workspaceDir op.destPath
  let (fs1, e) := CopyDirectory ctx cwd op.srcPath dest fs
  match e with
  | some msg => (fs1, .error msg)
  | none =>
    match ListDirectory ctx cwd dest none fs1 with
    | .error _ => (fs1, .ok [dest])
    | .ok names => (fs1, .ok (names.map (fun n => goJoin dest n)))

/-- Go `executeJsonRunCommand`: spawn the host command (recorded in the `ran`
log; the model lets the spawned process succeed with empty output).  With
an output file, the output directory is created through the validated
`CreateDirectory` and the captured output written. -/
def executeJsonRunCommand (ctx : SecurityContext) (cwd : String)
    (op : Operation) (workspaceDir : String) (fs : FS) :
    FS × Except String (List String) :=
  let _workDir :=
    if op.workDir = "" then workspaceDir
    else if goIsAbs op.workDir then op.workDir
    else goJoin workspaceDir op.workDir
  if op.outputFile ≠ "" then
    let outputPath := goJoin workspaceDir op.outputFile
    let (fs1, e) := CreateDirectory ctx cwd (goDir outputPath) fs
    match e with
    | some msg => (fs1, .error ("failed to create output directory: " ++ msg))
    | none =>
      let fs2 := { fs1 with ran := fs1.ran ++ [(op.command, op.args)] }
      ((fs2.setFile (resolveP cwd outputPath) ""), .ok [outputPath])
  else
    ({ fs with ran := fs.ran ++ [(op.command, op.args)] }, .ok [])

/-- Go `executeJsonOperation`: dispatch on the operation type string. -/
def executeJsonOperation (ctx : SecurityContext) (cwd : String)
    (op : Operation) (workspaceDir : String) (fs : FS) :
    FS × Except String (List String) :=
  if op.type = "copy_file" then executeJsonCopyFile ctx cwd op workspaceDir fs
  else if op.type = "mkdir" then executeJsonMkdir ctx cwd op workspaceDir fs
  else if op.type = "copy_directory_contents" then
    executeJsonCopyDirectoryContents ctx cwd op workspaceDir fs
  else if op.type = "run_command" then
    executeJsonRunCommand ctx cwd op workspaceDir fs
  else (fs, .error ("unsupported operation type: " ++ op.type))

/-- The sequential execution loop of `ProcessJsonConfig`: run the
operations in input order, stop at the first failure, and report the
operations that were attempted together with the prepared files.  The
middle component is the instrumented execution trace. -/
def runOps (ctx : SecurityContext) (cwd workspaceDir : String) :
    List Operation → FS → FS × List Operation × Except String (List String)
  | [], fs => (fs, [], .ok [])
  | op :: rest, fs =>
    let (fs1, r) := executeJsonOperation ctx cwd op workspaceDir fs
    match r with
    | .error e => (fs1, [op], .error e)
    | .ok files =>
      let (fs2, tr, res) := runOps ctx cwd workspaceDir rest fs1
      (fs2, op :: tr,
        match res with
        | .error e => .error e
        | .ok more => .ok (files ++ more))

/-- Go `ProcessJsonConfig`: parse (a `none` document stands for JSON that
`json.Unmarshal` rejects), pre-validate, create the workspace directory,
then execute the operations in sequence.  Returns the final filesystem,
the instrumented trace of attempted operations, and the single
result/error value. -/
def ProcessJsonConfig (ctx : SecurityContext) (cwd : String)
    (doc : Option JsonConfig) (fs : FS) :
    FS × List Operation × Except String WorkspaceInfo :=
  match doc with
  | none => (fs, [], .error "failed to parse JSON config")
  | some config =>
    match validateJsonConfig config with
    | some e => (fs, [], .error ("invalid JSON config: " ++ e))
    | none =>
      let (fs1, e1) := CreateDirectory ctx cwd config.workspaceDir fs
      match e1 with
      | some e => (fs1, [], .error ("failed to create workspace directory: " ++ e))
      | none =>
        let (fs2, tr, res) := runOps ctx cwd config.workspaceDir config.operations fs1
        match res with
        | .error e => (fs2, tr, .error ("operation failed: " ++ e))
        | .ok files =>
          (fs2, tr, .ok
            { preparedFiles := files,
              workspacePath := config.workspaceDir,
              message := "Successfully processed " ++ toString config.operations.length ++ " operations" })

/-- Go `ValidateJsonConfig` boundary function: parse then pre-validate. -/
def ValidateJsonConfig (doc : Option JsonConfig) : Option String :=
  match doc with
  | none => some "failed to parse JSON config"
  | some config => validateJsonConfig config

/-- Is an `Except` an error? -/
def isErr {ε α : Type} : Except ε α → Bool
  | .error _ => true
  | .ok _ => false

/-! ### Guest/host marshaling layer (`tinygo/wit_bindings.go`)

Linear memory is a byte arena modelled as a character list; `uint32`
arithmetic is `Nat` arithmetic taken modulo `2 ^ 32` where the machine
word wraps. -/

/-- Go `packPtrLen`: pack pointer and length into a single `uint32` word,
`(ptr << 16) | (length & 0xFFFF)` with the shift wrapping mod `2 ^ 32`. -/
def packPtrLen (ptr len : Nat) : Nat :=
  ((ptr <<< 16) % 2 ^ 32) ||| (len &&& 0xFFFF)

/-- Go `ptrToString`: read `len` bytes at offset `ptr` of the linear memory;
length zero yields the empty string. -/
def ptrToString (arena : List Char) (ptr len : Nat) : String :=
  if len = 0 then "" else String.mk ((arena.drop ptr).take len)

/-- Go `allocateMemory` followed by `encodeString`: the allocator hands out
the next free address of the append-only arena, the bytes are copied
there, and the packed (pointer,length) word is returned. -/
def encodeString (arena : List Char) (s : String) : List Char × Nat :=
  let ptr := arena.length
  (arena ++ s.toList, packPtrLen ptr s.toList.length)

/-- Modelled from the spec: the host-side unpacking of the word built by
`packPtrLen` (only the guest side is in the repository; the spec's
"decoding is the pure inverse" fixes the pointer as the high 16 bits). -/
def unpackPtr (w : Nat) : Nat := w >>> 16

/-- Modelled from the spec: the length is the low 16 bits of the packed
word. -/
def unpackLen (w : Nat) : Nat := w &&& 0xFFFF

/-- Decode a packed boundary word against the linear memory. -/
def decodeWord (arena : List Char) (w : Nat) : String :=
  ptrToString arena (unpackPtr w) (unpackLen w)

/-! ## Supporting lemmas -/

theorem strContainsL_of_isPrefixOf {cs sub : List Char}
    (h : sub.isPrefixOf cs = true) : strContainsL cs sub = true := by
  cases cs with
  | nil =>
    cases sub with
    | nil => rfl
    | cons c t => simp [List.isPrefixOf] at h
  | cons c t => simp [strContainsL, h]

theorem strContainsL_cons {c : Char} {t sub : List Char}
    (h : strContainsL t sub = true) : strContainsL (c :: t) sub = true := by
  simp [strContainsL, h]

theorem splitSegs_spec (cs : List Char) :
    (∀ seg ∈ splitSegs cs, strContainsL cs seg = true) ∧
    (∀ s ss, splitSegs cs = s :: ss → s.isPrefixOf cs = true) := by
  induction cs with
  | nil =>
    refine ⟨?_, ?_⟩
    · intro seg h
      simp [splitSegs] at h
      subst h; rfl
    · intro s ss h
      simp [splitSegs] at h
      simp [h.1, List.isPrefixOf]
  | cons c rest ih =>
    by_cases hc : c = '/'
    · subst hc
      have hsplit : splitSegs ('/' :: rest) = [] :: splitSegs rest := by
        simp [splitSegs]
      refine ⟨?_, ?_⟩
      · intro seg h
        rw [hsplit] at h
        rcases List.mem_cons.mp h with h | h
        · subst h
          exact strContainsL_of_isPrefixOf (by simp [List.isPrefixOf])
        · exact strContainsL_cons (ih.1 seg h)
      · intro s ss h
        rw [hsplit] at h
        injection h with h1 h2
        subst h1
        simp [List.isPrefixOf]
    · cases hr : splitSegs rest with
      | nil =>
        exfalso
        cases rest with
        | nil => simp [splitSegs] at hr
        | cons d t =>
          simp only [splitSegs] at hr
          split at hr
          · exact absurd hr (by simp)
          · revert hr
            split <;> simp
      | cons s0 ss0 =>
        have hstep : splitSegs (c :: rest) = (c :: s0) :: ss0 := by
          simp only [splitSegs, if_neg hc, hr]
        have hpre0 : s0.isPrefixOf rest = true := ih.2 s0 ss0 hr
        refine ⟨?_, ?_⟩
        · intro seg h
          rw [hstep] at h
          rcases List.mem_cons.mp h with h | h
          · subst h
            exact strContainsL_of_isPrefixOf
              (by simp [List.isPrefixOf, hpre0])
          · exact strContainsL_cons (ih.1 seg (hr ▸ List.mem_cons_of_mem s0 h))
        · intro s ss h
          rw [hstep] at h
          injection h with h1 h2
          subst h1
          simp [List.isPrefixOf, hpre0]

/-- A ".." segment of the cleaned path makes `containsPathTraversal` fire:
the segment is a substring of the cleaned form. -/
theorem containsPathTraversal_of_dotdot_seg {p : String}
    (h : ['.', '.'] ∈ splitSegs (cleanList p.toList)) :
    containsPathTraversal p = true :=
  (splitSegs_spec (cleanList p.toList)).1 _ h

/-! ## Claims -/

/-- C1: for every path `p` whose lexically-cleaned form contains a ".."
segment, and every allow-list, `ValidatePath` returns Denied under every
security context — in particular at Standard, High and Strict. -/
theorem validatePath_denies_traversal (ctx : SecurityContext)
    (cwd p : String) (allow : List String)
    (h : ['.', '.'] ∈ splitSegs (cleanList p.toList)) :
    (ValidatePath ctx cwd p allow).isSome = true := by
  unfold ValidatePath
  rw [containsPathTraversal_of_dotdot_seg h]
  simp

/-- Witness for C1 at the concrete path "../x" under the initial
(Standard) context. -/
theorem validatePath_denies_traversal_witness :
    (['.', '.'] ∈ splitSegs (cleanList ("../x").toList)) ∧
    (ValidatePath initialSecurityContext "/" "../x" []).isSome = true :=
  ⟨by decide, validatePath_denies_traversal initialSecurityContext "/" "../x" [] (by decide)⟩

/-- A denial by the High checks persists through `validatePathStrict`,
which runs them first. -/
theorem validatePathStrict_isSome_of_high {ctx : SecurityContext}
    {cwd p : String} {allow : List String}
    (h : (validatePathHigh ctx p allow).isSome = true) :
    (validatePathStrict ctx cwd p allow).isSome = true := by
  unfold validatePathStrict
  cases h2 : validatePathHigh ctx p allow with
  | none => rw [h2] at h; simp at h
  | some e => simp

/-- C2: validation is monotonically restrictive in the security level —
a denial at the context's level persists at any level at least as strict,
under the order Standard < High < Strict. -/
theorem validatePath_monotone (ctx : SecurityContext) (L2 : SecurityLevel)
    (cwd p : String) (allow : List String)
    (hle : ctx.level.toNat ≤ L2.toNat)
    (hd : (ValidatePath ctx cwd p allow).isSome = true) :
    (ValidatePath { ctx with level := L2 } cwd p allow).isSome = true := by
  unfold ValidatePath at hd ⊢
  by_cases htrav : containsPathTraversal p = true
  · rw [htrav]; simp
  · rw [Bool.not_eq_true] at htrav
    rw [htrav] at hd ⊢
    simp only [Bool.false_eq_true, if_false] at hd ⊢
    cases h1 : ctx.level <;> rw [h1] at hd hle
    · simp [validatePathStandard] at hd
    · cases L2
      · exact absurd hle (by decide)
      · exact hd
      · exact validatePathStrict_isSome_of_high hd
    · cases L2
      · exact absurd hle (by decide)
      · exact absurd hle (by decide)
      · exact hd

/-- Witness for C2: a path denied at High (outside the allow-list) stays
denied at Strict. -/
theorem validatePath_monotone_witness :
    (SecurityLevel.high.toNat ≤ SecurityLevel.strict.toNat) ∧
    ((ValidatePath ⟨.high, [], []⟩ "/" "/etc/passwd" ["/workspace"]).isSome = true) ∧
    (ValidatePath ⟨.strict, [], []⟩ "/" "/etc/passwd" ["/workspace"]).isSome = true :=
  ⟨by decide, by decide,
    validatePath_monotone ⟨.high, [], []⟩ .strict "/" "/etc/passwd" ["/workspace"]
      (by decide) (by decide)⟩

/-- At Strict, a call with an empty allow-list is always denied: either the
traversal or High checks fire first, or the explicit allow-listing rule
does. -/
theorem strict_empty_allow_denied (ctx : SecurityContext) (cwd p : String)
    (hstrict : ctx.level = .strict) :
    (ValidatePath ctx cwd p []).isSome = true := by
  unfold ValidatePath
  by_cases htrav : containsPathTraversal p = true
  · rw [htrav]; simp
  · rw [Bool.not_eq_true] at htrav
    rw [htrav, hstrict]
    simp only [Bool.false_eq_true, if_false]
    unfold validatePathStrict
    cases h2 : validatePathHigh ctx p [] with
    | some e => simp
    | none => simp

/-- C6: at Strict, validation applies all High checks, denies every call
whose allow-list is empty, denies every path whose absolute form contains
a sensitive-name substring case-insensitively, and in particular allows
"/workspace/a.txt" against the allow-list ["/workspace"] when the
accessible directories are empty or ["/workspace"]. -/
theorem strict_validation_spec (ctx : SecurityContext) (cwd p : String)
    (allow : List String) (hstrict : ctx.level = .strict) :
    ((ValidatePath { ctx with level := .high } cwd p allow).isSome = true →
      (ValidatePath ctx cwd p allow).isSome = true) ∧
    ((ValidatePath ctx cwd p []).isSome = true) ∧
    ((strContainsL (lowerL (goAbs cwd p).toList) "secret".toList
        || strContainsL (lowerL (goAbs cwd p).toList) "private".toList
        || strContainsL (lowerL (goAbs cwd p).toList) ".ssh".toList) = true →
      (ValidatePath ctx cwd p allow).isSome = true) ∧
    (ValidatePath ⟨.strict, [], []⟩ "/" "/workspace/a.txt" ["/workspace"] = none ∧
      ValidatePath ⟨.strict, ["/workspace"], []⟩ "/" "/workspace/a.txt" ["/workspace"] = none) := by
  refine ⟨?_, strict_empty_allow_denied ctx cwd p hstrict, ?_, by decide, by decide⟩
  · intro hd
    unfold ValidatePath at hd ⊢
    by_cases htrav : containsPathTraversal p = true
    · rw [htrav]; simp
    · rw [Bool.not_eq_true] at htrav
      rw [htrav] at hd ⊢
      simp only [Bool.false_eq_true, if_false] at hd ⊢
      rw [hstrict]
      exact validatePathStrict_isSome_of_high hd
  · intro hsens
    unfold ValidatePath
    by_cases htrav : containsPathTraversal p = true
    · rw [htrav]; simp
    · rw [Bool.not_eq_true] at htrav
      rw [htrav, hstrict]
      simp only [Bool.false_eq_true, if_false]
      unfold validatePathStrict
      cases h2 : validatePathHigh ctx p allow with
      | some e => simp
      | none =>
        by_cases hallow : allow.length = 0
        · simp [hallow]
        · simp [hallow]
          simpa using hsens

/-- Witness for C6 at a concrete sensitive path under a concrete Strict
context. -/
theorem strict_validation_spec_witness :
    (strContainsL (lowerL (goAbs "/" "/etc/secret.txt").toList) "secret".toList
      || strContainsL (lowerL (goAbs "/" "/etc/secret.txt").toList) "private".toList
      || strContainsL (lowerL (goAbs "/" "/etc/secret.txt").toList) ".ssh".toList) = true ∧
    (ValidatePath ⟨.strict, [], []⟩ "/" "/etc/secret.txt" ["/etc"]).isSome = true :=
  ⟨by decide,
    (strict_validation_spec ⟨.strict, [], []⟩ "/" "/etc/secret.txt" ["/etc"] rfl).2.2.1
      (by decide)⟩

/-- C5: at High or Strict, a copy operation passes `ValidateOperation`
only if the source is accessible and the destination writable, and is
denied whenever either endpoint check fails; `ValidateOperation` is a pure
function of the context and paths, so a denial has no filesystem effect. -/
theorem validateOperation_copy_endpoints (ctx : SecurityContext)
    (cwd src dest : String) (rest : List String)
    (hlvl : levelGe ctx.level .high = true) :
    (ValidateOperation ctx cwd "copy_file" (src :: dest :: rest) = none →
      isPathAccessible ctx src = true ∧ isPathWritable ctx dest = true) ∧
    ((isPathAccessible ctx src = false ∨ isPathWritable ctx dest = false) →
      (ValidateOperation ctx cwd "copy_file" (src :: dest :: rest)).isSome = true) := by
  unfold ValidateOperation
  cases hf : (src :: dest :: rest).findSome? (fun p =>
      (ValidatePath ctx cwd p ctx.accessibleDirs).map
        (fun e => "operation " ++ "copy_file" ++ " failed path validation: " ++ e)) with
  | some e => exact ⟨fun h => by simp at h, fun _ => by simp⟩
  | none =>
    simp only [String.reduceEq, or_self, or_false, if_true, if_pos, reduceIte]
    constructor
    · intro h
      unfold validateCopyOperation at h
      rw [hlvl] at h
      by_cases hacc : isPathAccessible ctx src = true
      · by_cases hw : isPathWritable ctx dest = true
        · exact ⟨hacc, hw⟩
        · rw [Bool.not_eq_true] at hw
          simp [hacc, hw] at h
      · rw [Bool.not_eq_true] at hacc
        simp [hacc] at h
    · intro h
      unfold validateCopyOperation
      rw [hlvl]
      rcases h with h | h
      · simp [h]
      · by_cases hacc : isPathAccessible ctx src = true
        · simp [hacc, h]
        · rw [Bool.not_eq_true] at hacc
          simp [hacc]

/-- Witness for C5: a destination outside the accessible set is denied at
High. -/
theorem validateOperation_copy_endpoints_witness :
    levelGe (SecurityLevel.high) .high = true ∧
    isPathWritable ⟨.high, ["/data"], []⟩ "/etc/b" = false ∧
    (ValidateOperation ⟨.high, ["/data"], []⟩ "/" "copy_file" ["/data/a", "/etc/b"]).isSome = true :=
  ⟨by decide, by decide,
    (validateOperation_copy_endpoints ⟨.high, ["/data"], []⟩ "/" "/data/a" "/etc/b" []
      (by decide)).2 (Or.inr (by decide))⟩

/-- C7 counterexample: `RemovePath` on the missing path ".." fails — the
security validation runs before the delete, so a missing path is not
always a success. -/
theorem removePath_missing_counterexample :
    pathExistsFS FS.empty (resolveP "/" "..") = false ∧
    (RemovePath initialSecurityContext "/" ".." FS.empty).2.isSome = true := by
  constructor
  · decide
  · decide

/-- C7 amended: when the path passes security validation, `RemovePath`
succeeds on a missing path, and a second `RemovePath` immediately after a
successful one always succeeds. -/
theorem removePath_idempotent (ctx : SecurityContext) (cwd p : String) (fs : FS) :
    (ValidatePath ctx cwd p [] = none →
      pathExistsFS fs (resolveP cwd p) = false →
      (RemovePath ctx cwd p fs).2 = none) ∧
    ((RemovePath ctx cwd p fs).2 = none →
      (RemovePath ctx cwd p (RemovePath ctx cwd p fs).1).2 = none) := by
  constructor
  · intro hval _hmissing
    unfold RemovePath
    rw [hval]
    simp [removeAllFS]
  · intro hok
    unfold RemovePath at hok ⊢
    cases hv : ValidatePath ctx cwd p [] with
    | some e => rw [hv] at hok; simp at hok
    | none => simp [removeAllFS]

/-- Witness for C7's amended statement at a concrete missing path. -/
theorem removePath_idempotent_witness :
    ValidatePath initialSecurityContext "/" "/tmp/x" [] = none ∧
    pathExistsFS FS.empty (resolveP "/" "/tmp/x") = false ∧
    (RemovePath initialSecurityContext "/" "/tmp/x" FS.empty).2 = none :=
  ⟨by decide, by decide,
    (removePath_idempotent initialSecurityContext "/" "/tmp/x" FS.empty).1
      (by decide) (by decide)⟩

/-- C8 counterexample: re-setting the High level is not idempotent — the
restrictions list grows on every call. -/
theorem setSecurityLevel_counterexample :
    SetSecurityLevel (SetSecurityLevel initialSecurityContext .high) .high ≠
      SetSecurityLevel initialSecurityContext .high := by
  decide

/-- C8 amended: re-setting a level is idempotent on the level and the
accessible directories, and on the whole context exactly for Standard;
for High and Strict every re-set appends two more restriction
descriptors, so the full context differs. -/
theorem setSecurityLevel_idempotence (ctx : SecurityContext) (L : SecurityLevel) :
    ((SetSecurityLevel (SetSecurityLevel ctx L) L).level =
      (SetSecurityLevel ctx L).level) ∧
    ((SetSecurityLevel (SetSecurityLevel ctx L) L).accessibleDirs =
      (SetSecurityLevel ctx L).accessibleDirs) ∧
    (L = .standard →
      SetSecurityLevel (SetSecurityLevel ctx L) L = SetSecurityLevel ctx L) ∧
    (L ≠ .standard →
      SetSecurityLevel (SetSecurityLevel ctx L) L ≠ SetSecurityLevel ctx L) := by
  cases L with
  | standard => refine ⟨rfl, rfl, fun _ => rfl, fun h => absurd rfl h⟩
  | high =>
    refine ⟨rfl, rfl, fun h => by simp at h, fun _ hne => ?_⟩
    have := congrArg (fun c => c.restrictions.length) hne
    simp [SetSecurityLevel] at this
  | strict =>
    refine ⟨rfl, rfl, fun h => by simp at h, fun _ hne => ?_⟩
    have := congrArg (fun c => c.restrictions.length) hne
    simp [SetSecurityLevel] at this

/-- Witness for C8's amended statement: Standard re-set is idempotent. -/
theorem setSecurityLevel_idempotence_witness :
    SetSecurityLevel (SetSecurityLevel initialSecurityContext .standard) .standard =
      SetSecurityLevel initialSecurityContext .standard :=
  (setSecurityLevel_idempotence initialSecurityContext .standard).2.2.1 rfl

/-- A successful file lookup means a regular file is present. -/
theorem lookupFile_isFile {fs : FS} {p c : String}
    (h : fs.lookupFile p = some c) : fs.isFile p = true := by
  unfold FS.lookupFile at h
  cases hf : fs.files.find? (fun kv => kv.1 = p) with
  | none => rw [hf] at h; simp at h
  | some kv =>
    unfold FS.isFile
    have hp := List.find?_some hf
    have hmem := List.mem_of_find?_eq_some hf
    simp only [List.any_eq_true]
    exact ⟨kv, hmem, hp⟩

/-- C9: when the source is missing and the destination validates, the
parent-directory creation in `CopyFile` happens before the source is
opened, so the call returns an error but still leaves the destination's
parent directory on the filesystem. -/
theorem copyFile_missing_source_mutates (ctx : SecurityContext)
    (cwd src dest : String) (fs : FS)
    (hsrc : pathExistsFS fs (resolveP cwd src) = false)
    (hval : ValidatePath ctx cwd dest [] = none)
    (hparent : fs.isFile (resolveP cwd (goDir dest)) = false) :
    (CopyFile ctx cwd src dest fs).2.isSome = true ∧
    (CopyFile ctx cwd src dest fs).1.isDir (resolveP cwd (goDir dest)) = true := by
  have hnf : fs.isFile (resolveP cwd src) = false := by
    unfold pathExistsFS at hsrc
    exact (Bool.or_eq_false_iff.mp hsrc).1
  have hmk : (mkdirAll fs (resolveP cwd (goDir dest))).2 = none ∧
      (mkdirAll fs (resolveP cwd (goDir dest))).1.isDir (resolveP cwd (goDir dest)) = true ∧
      (mkdirAll fs (resolveP cwd (goDir dest))).1.files = fs.files := by
    unfold mkdirAll
    rw [hparent]
    simp only [Bool.false_eq_true, if_false]
    by_cases hd : fs.isDir (resolveP cwd (goDir dest)) = true
    · rw [if_pos hd]
      exact ⟨rfl, hd, rfl⟩
    · rw [Bool.not_eq_true] at hd
      rw [hd]
      simp [FS.isDir]
  unfold CopyFile
  rw [hval]
  rcases hpair : mkdirAll fs (resolveP cwd (goDir dest)) with ⟨fs1, e1⟩
  rw [hpair] at hmk
  obtain ⟨he1, hdir1, hfiles1⟩ := hmk
  simp only at he1 hdir1 hfiles1
  subst he1
  have hnf1 : fs1.isFile (resolveP cwd src) = false := by
    unfold FS.isFile at hnf ⊢
    rw [hfiles1, hnf]
  cases hl : fs1.lookupFile (resolveP cwd src) with
  | some c =>
    have := lookupFile_isFile hl
    rw [hnf1] at this
    exact absurd this (by simp)
  | none =>
    constructor
    · by_cases h1 : (!(fs1.isFile (resolveP cwd src) || fs1.isDir (resolveP cwd src))) = true
      · simp only [h1, if_true, reduceIte]
        simp
      · rw [Bool.not_eq_true] at h1
        simp only [h1, Bool.false_eq_true, if_false, reduceIte]
        by_cases h2 : fs1.isDir (resolveP cwd dest) = true
        · simp [h2]
        · rw [Bool.not_eq_true] at h2
          simp only [h2, Bool.false_eq_true, if_false, reduceIte]
          rw [hl]
          simp
    · by_cases h1 : (!(fs1.isFile (resolveP cwd src) || fs1.isDir (resolveP cwd src))) = true
      · simp only [h1, if_true, reduceIte]
        exact hdir1
      · rw [Bool.not_eq_true] at h1
        simp only [h1, Bool.false_eq_true, if_false, reduceIte]
        by_cases h2 : fs1.isDir (resolveP cwd dest) = true
        · simp only [h2, if_true, reduceIte]
          exact hdir1
        · rw [Bool.not_eq_true] at h2
          simp only [h2, Bool.false_eq_true, if_false, reduceIte]
          rw [hl]
          simpa [FS.setFile, FS.isDir] using hdir1

/-- Witness for C9 with a concrete missing source. -/
theorem copyFile_missing_source_mutates_witness :
    pathExistsFS FS.empty (resolveP "/" "/missing.txt") = false ∧
    ValidatePath initialSecurityContext "/" "/out/a.txt" [] = none ∧
    (CopyFile initialSecurityContext "/" "/missing.txt" "/out/a.txt" FS.empty).2.isSome = true ∧
    (CopyFile initialSecurityContext "/" "/missing.txt" "/out/a.txt" FS.empty).1.isDir
      (resolveP "/" (goDir "/out/a.txt")) = true :=
  ⟨by decide, by decide,
    (copyFile_missing_source_mutates initialSecurityContext "/" "/missing.txt" "/out/a.txt"
      FS.empty (by decide) (by decide) (by decide)).1,
    (copyFile_missing_source_mutates initialSecurityContext "/" "/missing.txt" "/out/a.txt"
      FS.empty (by decide) (by decide) (by decide)).2⟩

/-- The execution loop attempts a prefix of the operation list, in input
order, and attempts all of it exactly when no operation fails. -/
theorem runOps_trace (ctx : SecurityContext) (cwd ws : String)
    (ops : List Operation) (fs : FS) :
    (runOps ctx cwd ws ops fs).2.1 <+: ops ∧
    (isErr (runOps ctx cwd ws ops fs).2.2 = false →
      (runOps ctx cwd ws ops fs).2.1 = ops) := by
  induction ops generalizing fs with
  | nil => simp [runOps]
  | cons op rest ih =>
    simp only [runOps]
    rcases hex : executeJsonOperation ctx cwd op ws fs with ⟨fs1, r⟩
    cases r with
    | error e =>
      refine ⟨ List.cons_prefix_cons.mpr ⟨rfl, List.nil_prefix⟩, ?_⟩
      intro h
      simp [isErr] at h
    | ok files =>
      dsimp only
      rcases hro : runOps ctx cwd ws rest fs1 with ⟨fs2, tr, res⟩
      have ihh := ih fs1
      rw [hro] at ihh
      cases res with
      | error e =>
        refine ⟨ List.cons_prefix_cons.mpr ⟨rfl, ihh.1⟩, ?_⟩
        intro h
        simp [isErr] at h
      | ok more =>
        refine ⟨ List.cons_prefix_cons.mpr ⟨rfl, ihh.1⟩, ?_⟩
        intro _
        have htr := ihh.2 (by simp [isErr])
        simp only at htr
        simp [htr]

/-- C3: a batch that fails pre-validation (unparsable document, bad
workspace directory, missing operation fields, unknown operation type)
returns the single error and executes nothing — the filesystem, including
the workspace directory, is untouched and the execution trace is empty;
a batch that is processed attempts its operations strictly in input order
(its trace is a prefix of the input, the whole input on success). -/
theorem processJsonConfig_prevalidation_and_order (ctx : SecurityContext)
    (cwd : String) (doc : Option JsonConfig) (fs : FS) :
    ((ValidateJsonConfig doc).isSome = true →
      (ProcessJsonConfig ctx cwd doc fs).1 = fs ∧
      (ProcessJsonConfig ctx cwd doc fs).2.1 = [] ∧
      isErr (ProcessJsonConfig ctx cwd doc fs).2.2 = true) ∧
    (∀ config, doc = some config →
      (ProcessJsonConfig ctx cwd doc fs).2.1 <+: config.operations ∧
      (isErr (ProcessJsonConfig ctx cwd doc fs).2.2 = false →
        (ProcessJsonConfig ctx cwd doc fs).2.1 = config.operations)) := by
  constructor
  · intro hv
    cases doc with
    | none => exact ⟨rfl, rfl, rfl⟩
    | some config =>
      simp only [ValidateJsonConfig] at hv
      cases hvc : validateJsonConfig config with
      | none => rw [hvc] at hv; simp at hv
      | some e =>
        simp only [ProcessJsonConfig]
        rw [hvc]
        exact ⟨rfl, rfl, rfl⟩
  · intro config hdoc
    subst hdoc
    simp only [ProcessJsonConfig]
    cases hvc : validateJsonConfig config with
    | some e =>
      refine ⟨ List.nil_prefix, ?_⟩
      intro h
      simp [isErr] at h
    | none =>
      dsimp only
      rcases hcd : CreateDirectory ctx cwd config.workspaceDir fs with ⟨fs1, e1⟩
      cases e1 with
      | some e =>
        refine ⟨ List.nil_prefix, ?_⟩
        intro h
        simp [isErr] at h
      | none =>
        dsimp only
        rcases hro : runOps ctx cwd config.workspaceDir config.operations fs1 with ⟨fs2, tr, res⟩
        have ht := runOps_trace ctx cwd config.workspaceDir config.operations fs1
        rw [hro] at ht
        cases res with
        | error e =>
          refine ⟨ht.1, ?_⟩
          intro h
          simp [isErr] at h
        | ok files =>
          refine ⟨ht.1, fun _ => ?_⟩
          have htr := ht.2 (by simp [isErr])
          simp only at htr
          simp [htr]

/-- Witness for C3 at a document whose workspace directory is empty. -/
theorem processJsonConfig_prevalidation_witness :
    (ValidateJsonConfig (some ⟨"", []⟩)).isSome = true ∧
    (ProcessJsonConfig initialSecurityContext "/" (some ⟨"", []⟩) FS.empty).1 = FS.empty ∧
    (ProcessJsonConfig initialSecurityContext "/" (some ⟨"", []⟩) FS.empty).2.1 = [] :=
  ⟨by decide,
    ((processJsonConfig_prevalidation_and_order initialSecurityContext "/" (some ⟨"", []⟩)
      FS.empty).1 (by decide)).1,
    ((processJsonConfig_prevalidation_and_order initialSecurityContext "/" (some ⟨"", []⟩)
      FS.empty).1 (by decide)).2.1⟩

/-- Go `mkdirAll` never touches the command log. -/
theorem mkdirAll_ran (fs : FS) (p : String) : (mkdirAll fs p).1.ran = fs.ran := by
  unfold mkdirAll
  split
  · rfl
  · split
    · rfl
    · rfl

/-- A `run_command` operation without an output file is executed without
any path or operation validation: it always succeeds and only appends the
spawned command to the log. -/
theorem executeJsonOperation_run_command (ctx : SecurityContext)
    (cwd ws : String) (op : Operation) (fs : FS)
    (hty : op.type = "run_command") (hout : op.outputFile = "") :
    executeJsonOperation ctx cwd op ws fs =
      ({ fs with ran := fs.ran ++ [(op.command, op.args)] }, .ok []) := by
  unfold executeJsonOperation
  rw [hty]
  simp only [String.reduceEq, if_false, if_true, reduceIte]
  unfold executeJsonRunCommand
  rw [hout]
  simp

/-- Running a batch consisting solely of `run_command` operations (without
output files) succeeds and spawns every command, in input order. -/
theorem runOps_run_commands (ctx : SecurityContext) (cwd ws : String)
    (ops : List Operation) (fs : FS)
    (h : ∀ op ∈ ops, op.type = "run_command" ∧ op.outputFile = "") :
    (runOps ctx cwd ws ops fs).1.ran =
      fs.ran ++ ops.map (fun op => (op.command, op.args)) ∧
    isErr (runOps ctx cwd ws ops fs).2.2 = false := by
  induction ops generalizing fs with
  | nil => simp [runOps, isErr]
  | cons op rest ih =>
    obtain ⟨hty, hout⟩ := h op (List.mem_cons_self op rest)
    have hexec := executeJsonOperation_run_command ctx cwd ws op fs hty hout
    simp only [runOps, hexec]
    rcases hro : runOps ctx cwd ws rest { fs with ran := fs.ran ++ [(op.command, op.args)] }
      with ⟨fs2, tr, res⟩
    have ihh := ih { fs with ran := fs.ran ++ [(op.command, op.args)] }
      (fun o ho => h o (List.mem_cons_of_mem op ho))
    rw [hro] at ihh
    simp only at ihh
    cases res with
    | error e =>
      exfalso
      simpa [isErr] using ihh.2
    | ok more =>
      refine ⟨?_, by simp [isErr]⟩
      simp only
      rw [ihh.1]
      simp

/-- C10 counterexample: at Strict, a pre-validated batch containing a
run_command operation fails at workspace creation, so the host command is
not executed — "regardless of the configured security level" is false. -/
theorem runCommand_strict_counterexample :
    (ProcessJsonConfig ⟨.strict, [], []⟩ "/"
        (some ⟨"/ws", [{ type := "run_command", command := "echo" }]⟩) FS.empty).1.ran = [] ∧
    isErr (ProcessJsonConfig ⟨.strict, [], []⟩ "/"
        (some ⟨"/ws", [{ type := "run_command", command := "echo" }]⟩) FS.empty).2.2 = true := by
  constructor
  · decide
  · decide

/-- C10 amended: the batch path consults no command validation — at High
(with empty accessible directories) a pre-validated batch of run_command
operations executes every host command even though
`validateCommandOperation` denies command execution at that level; at
Strict, however, `ProcessJsonConfig` fails before executing anything, so
commands are not run at every level. -/
theorem runCommand_bypasses_validation (r : List String) (cwd : String)
    (cfg : JsonConfig) (fs : FS)
    (hv : validateJsonConfig cfg = none)
    (hops : ∀ op ∈ cfg.operations, op.type = "run_command" ∧ op.outputFile = "")
    (htrav : containsPathTraversal cfg.workspaceDir = false)
    (hfile : fs.isFile (resolveP cwd cfg.workspaceDir) = false) :
    (isErr (ProcessJsonConfig ⟨.high, [], r⟩ cwd (some cfg) fs).2.2 = false ∧
      (ProcessJsonConfig ⟨.high, [], r⟩ cwd (some cfg) fs).1.ran =
        fs.ran ++ cfg.operations.map (fun op => (op.command, op.args))) ∧
    (∀ ps, (validateCommandOperation ⟨.high, [], r⟩ ps).isSome = true) ∧
    (∀ ctx2 : SecurityContext, ∀ cwd2 : String, ∀ doc2 : Option JsonConfig, ∀ fs2 : FS,
      ctx2.level = .strict →
      (ProcessJsonConfig ctx2 cwd2 doc2 fs2).1 = fs2 ∧
      (ProcessJsonConfig ctx2 cwd2 doc2 fs2).2.1 = [] ∧
      isErr (ProcessJsonConfig ctx2 cwd2 doc2 fs2).2.2 = true) := by
  refine ⟨?_, fun ps => by simp [validateCommandOperation, levelGe], ?_⟩
  · have hvp : ValidatePath ⟨.high, [], r⟩ cwd cfg.workspaceDir [] = none := by
      unfold ValidatePath
      rw [htrav]
      simp [validatePathHigh]
    have hcd : (CreateDirectory ⟨.high, [], r⟩ cwd cfg.workspaceDir fs).2 = none ∧
        (CreateDirectory ⟨.high, [], r⟩ cwd cfg.workspaceDir fs).1.ran = fs.ran := by
      unfold CreateDirectory
      rw [hvp]
      have hr := mkdirAll_ran fs (resolveP cwd cfg.workspaceDir)
      rcases hmk : mkdirAll fs (resolveP cwd cfg.workspaceDir) with ⟨fsm, em⟩
      rw [hmk] at hr
      cases em with
      | some e =>
        exfalso
        unfold mkdirAll at hmk
        rw [hfile] at hmk
        simp only [Bool.false_eq_true, if_false] at hmk
        split at hmk <;> simp at hmk
      | none => exact ⟨rfl, hr⟩
    simp only [ProcessJsonConfig]
    rw [hv]
    dsimp only
    rcases hcdp : CreateDirectory ⟨.high, [], r⟩ cwd cfg.workspaceDir fs with ⟨fs1, e1⟩
    rw [hcdp] at hcd
    simp only at hcd
    obtain ⟨he1, hran1⟩ := hcd
    subst he1
    dsimp only
    rcases hro : runOps ⟨.high, [], r⟩ cwd cfg.workspaceDir cfg.operations fs1 with ⟨fs2, tr, res⟩
    have hrr := runOps_run_commands ⟨.high, [], r⟩ cwd cfg.workspaceDir cfg.operations fs1 hops
    rw [hro] at hrr
    simp only at hrr
    cases res with
    | error e =>
      exfalso
      simpa [isErr] using hrr.2
    | ok files =>
      refine ⟨by simp [isErr], ?_⟩
      simp only
      rw [hrr.1, hran1]
  · intro ctx2 cwd2 doc2 fs2 hstrict
    cases doc2 with
    | none => exact ⟨rfl, rfl, rfl⟩
    | some cfg2 =>
      simp only [ProcessJsonConfig]
      cases hvc : validateJsonConfig cfg2 with
      | some e => exact ⟨rfl, rfl, rfl⟩
      | none =>
        dsimp only
        have hden := strict_empty_allow_denied ctx2 cwd2 cfg2.workspaceDir hstrict
        unfold CreateDirectory
        cases hvp : ValidatePath ctx2 cwd2 cfg2.workspaceDir [] with
        | none => rw [hvp] at hden; simp at hden
        | some e => exact ⟨rfl, rfl, rfl⟩

/-- Witness for C10's amended statement: one run_command batch at High. -/
theorem runCommand_bypasses_validation_witness :
    (ProcessJsonConfig ⟨.high, [], []⟩ "/"
        (some ⟨"/ws", [{ type := "run_command", command := "echo" }]⟩) FS.empty).1.ran =
      [("echo", [])] ∧
    (validateCommandOperation ⟨.high, [], []⟩ ["echo"]).isSome = true := by
  have h := runCommand_bypasses_validation [] "/"
    ⟨"/ws", [{ type := "run_command", command := "echo" }]⟩ FS.empty
    (by decide) (by decide) (by decide) (by decide)
  exact ⟨by simpa using h.1.2, h.2.1 ["echo"]⟩

/-- The low 16 bits of the packed word are the length modulo `2 ^ 16`. -/
theorem and_mask_eq_mod (len : Nat) : len &&& 0xFFFF = len % 65536 := by
  have h1 : (0xFFFF : Nat) = 2 ^ 16 - 1 := by norm_num
  have h2 : (65536 : Nat) = 2 ^ 16 := by norm_num
  rw [h1, h2]
  exact Nat.and_pow_two_sub_one_eq_mod len 16

/-- Oring the low bits into a multiple of `2 ^ 16` is addition. -/
theorem or_low_bits (a m : Nat) (hm : m < 65536) :
    (a * 65536) ||| m = a * 65536 + m := by
  have h : (65536 : Nat) = 2 ^ 16 := by norm_num
  rw [h] at hm ⊢
  rw [Nat.mul_comm a (2 ^ 16)]
  exact (Nat.mul_add_lt_is_or hm a).symm

/-- For a pointer below `2 ^ 16` the packed word is the exact base-`2 ^ 16`
digit pair. -/
theorem packPtrLen_eq (ptr len : Nat) (hp : ptr < 65536) :
    packPtrLen ptr len = ptr * 65536 + len % 65536 := by
  unfold packPtrLen
  have h2 : ptr <<< 16 = ptr * 65536 := by
    rw [Nat.shiftLeft_eq]
  have h3 : ptr * 65536 < 2 ^ 32 := by
    have hple : ptr ≤ 65535 := by omega
    calc ptr * 65536 ≤ 65535 * 65536 := Nat.mul_le_mul_right 65536 hple
      _ < 2 ^ 32 := by norm_num
  rw [h2, Nat.mod_eq_of_lt h3, and_mask_eq_mod]
  exact or_low_bits ptr (len % 65536) (Nat.mod_lt len (by norm_num))

/-- Unpacking recovers the pointer from a bounded digit pair. -/
theorem unpackPtr_eq (ptr m : Nat) (hm : m < 65536) :
    unpackPtr (ptr * 65536 + m) = ptr := by
  unfold unpackPtr
  rw [Nat.shiftRight_eq_div_pow]
  norm_num
  rw [Nat.mul_comm ptr 65536, Nat.mul_add_div (by norm_num) ptr m,
    Nat.div_eq_of_lt hm, Nat.add_zero]

/-- Unpacking recovers the length from a bounded digit pair. -/
theorem unpackLen_eq (ptr m : Nat) (hm : m < 65536) :
    unpackLen (ptr * 65536 + m) = m := by
  unfold unpackLen
  rw [and_mask_eq_mod, Nat.mul_comm ptr 65536, Nat.mul_add_mod,
    Nat.mod_eq_of_lt hm]

/-- C4 counterexample: encoding a 65536-byte string packs length 0 into the
word, so decoding returns the empty string — `decode (encode x) = x` fails
for every supported shape once the length (or the arena pointer) reaches
`2 ^ 16`. -/
theorem boundary_roundtrip_counterexample :
    decodeWord (encodeString [] (String.mk (List.replicate 65536 'a'))).1
        (encodeString [] (String.mk (List.replicate 65536 'a'))).2 ≠
      String.mk (List.replicate 65536 'a') := by
  have hword : (encodeString [] (String.mk (List.replicate 65536 'a'))).2 = 0 := by
    unfold encodeString
    simp only [String.toList, List.length_nil, List.length_replicate]
    unfold packPtrLen
    simp only [Nat.zero_shiftLeft, Nat.zero_mod]
    rw [and_mask_eq_mod]
    have hm : (65536 % 65536 : Nat) = 0 := by norm_num
    rw [hm]
    exact Nat.zero_or 0
  rw [hword]
  unfold decodeWord unpackPtr unpackLen
  have h0 : (0 : Nat) >>> 16 = 0 := by
    rw [Nat.shiftRight_eq_div_pow]
  have h1 : (0 : Nat) &&& 0xFFFF = 0 := by
    rw [and_mask_eq_mod]
  rw [h0, h1]
  unfold ptrToString
  simp only [if_pos rfl]
  intro h
  have h3 : String.mk [] = String.mk (List.replicate 65536 'a') := h
  have h2 : ([] : List Char) = List.replicate 65536 'a' := by injection h3
  have h4 : ([] : List Char).length = (List.replicate 65536 'a').length :=
    congrArg List.length h2
  rw [List.length_replicate, List.length_nil] at h4
  omega

/-- C4 amended: the boundary marshaling round-trip `decode (encode x) = x`
holds exactly on the intended domain of the 16/16 bit packing — an arena
pointer and a byte length both below `2 ^ 16`; all supported value shapes
(strings, path lists, batch result records) cross the boundary through
this same string encoding of their serialized form. -/
theorem boundary_roundtrip_bounded (arena : List Char) (s : String)
    (hp : arena.length < 65536) (hl : s.toList.length < 65536) :
    decodeWord (encodeString arena s).1 (encodeString arena s).2 = s := by
  unfold encodeString decodeWord
  simp only
  rw [packPtrLen_eq arena.length s.toList.length hp, Nat.mod_eq_of_lt hl,
    unpackPtr_eq arena.length s.toList.length hl,
    unpackLen_eq arena.length s.toList.length hl]
  unfold ptrToString
  by_cases h0 : s.toList.length = 0
  · rw [if_pos h0]
    cases s with
    | mk data =>
      simp only [String.toList] at h0
      rw [List.length_eq_zero] at h0
      rw [h0]
  · rw [if_neg h0]
    cases s with
    | mk data =>
      simp only [String.toList]
      rw [List.drop_left arena data, List.take_length]

/-- Witness for C4's amended round-trip at a small arena and string. -/
theorem boundary_roundtrip_bounded_witness :
    (List.length ['x'] < 65536) ∧ ("ab".toList.length < 65536) ∧
    decodeWord (encodeString ['x'] "ab").1 (encodeString ['x'] "ab").2 = "ab" :=
  ⟨by decide, by decide, boundary_roundtrip_bounded ['x'] "ab" (by decide) (by decide)⟩

end FileOps
